import Mathlib

/-!
Shallow embedding of the Battleship match engine from `src/main.rs`
(grid model, placement collision rules, shooting / damage resolution,
opponent AI tactic state machine), together with theorems settling the
specification claims about it.

Machine integers: the source uses `usize`/`isize`/`u8`/`i8` coordinates.
All coordinate arithmetic in the source stays far from any overflow
boundary except for the documented `as u8` truncating casts in the AI's
`Line` tactic, which are modelled explicitly with `% 256`.  Coordinates
are therefore embedded as `Nat`/`Int`; the truncating cast is `emod 256`.
Sound playback and drawing are external effects with no game state and
are omitted.  Floating point timers (`timer`, `delay`) decide only *when*
an AI tick fires, never *what* it does; the tick is modelled with an
explicit `ready : Bool` input in their place.  The random number sources
are modelled as explicit oracle arguments.  The unbounded `loop`s in
`update_ai` are modelled with explicit fuel, `none` standing for a
non-terminating (or panicking) execution.
-/

namespace Battleship

/-- Grid side length, `const GRID: usize = 10`. -/
def GRID : Nat := 10

/-- `enum Dir { Up, Down, Left, Right }`. -/
inductive Dir where
  | up
  | down
  | left
  | right
deriving DecidableEq, Repr, Fintype

/-- `Dir::to_vec`. -/
def Dir.to_vec : Dir → Int × Int
  | .up => (0, -1)
  | .down => (0, 1)
  | .left => (-1, 0)
  | .right => (1, 0)

/-- `Dir::clockwise`. -/
def Dir.clockwise : Dir → Dir
  | .up => .right
  | .right => .down
  | .down => .left
  | .left => .up

/-- `Dir::counter_clockwise`. -/
def Dir.counter_clockwise : Dir → Dir
  | .up => .left
  | .left => .down
  | .down => .right
  | .right => .up

/-- `Dir::opposite`. -/
def Dir.opposite : Dir → Dir
  | .up => .down
  | .left => .right
  | .down => .up
  | .right => .left

/-- `enum Cell { Water, Miss, Ship { dir, front, back, fire, destroyed } }`. -/
inductive Cell where
  | water
  | miss
  | ship (dir : Dir) (front : Nat) (back : Nat) (fire : Bool) (destroyed : Bool)
deriving DecidableEq, Repr

/-- `struct Field { cells: [[Cell; GRID]; GRID] }`, indexed `cells[x][y]`. -/
structure Field where
  cells : Fin GRID → Fin GRID → Cell

instance : DecidableEq Field := fun a b =>
  decidable_of_iff (a.cells = b.cells) (by cases a; cases b; simp)

/-- `Field::new`: all cells `Water`. -/
def Field.new : Field := ⟨fun _ _ => Cell.water⟩

/-- `Field::get(x, y)` (in-range indexing; out-of-range indexing panics in
the source and is ruled out here by the `Fin GRID` argument types). -/
def Field.get (f : Field) (x y : Fin GRID) : Cell := f.cells x y

/-- `Field::set(x, y, cell)`. -/
def Field.set (f : Field) (x y : Fin GRID) (c : Cell) : Field :=
  ⟨fun i j => if i = x ∧ j = y then c else f.cells i j⟩

/-- The in-grid test `x >= 0 && y >= 0 && x < GRID && y < GRID` used
throughout the source on `isize`/`i32` coordinates. -/
def inGrid (x y : Int) : Prop := 0 ≤ x ∧ 0 ≤ y ∧ x < GRID ∧ y < GRID

instance (x y : Int) : Decidable (inGrid x y) := by
  unfold inGrid; infer_instance

/-- Guarded read at signed coordinates: the source pattern
`if x >= 0 && y >= 0 && x < GRID && y < GRID { ... get(x as usize, y as usize) }`. -/
def Field.readI (f : Field) (x y : Int) : Option Cell :=
  if h : inGrid x y then
    some (f.get ⟨x.toNat, by simp only [inGrid, GRID] at h ⊢; omega⟩
      ⟨y.toNat, by simp only [inGrid, GRID] at h ⊢; omega⟩)
  else
    none

/-- Guarded write at signed coordinates (out-of-grid writes are skipped,
as in every bounds-guarded mutation loop of the source). -/
def Field.setI (f : Field) (x y : Int) (c : Cell) : Field :=
  if h : inGrid x y then
    f.set ⟨x.toNat, by simp only [inGrid, GRID] at h ⊢; omega⟩
      ⟨y.toNat, by simp only [inGrid, GRID] at h ⊢; omega⟩ c
  else
    f

/-- `Field::checked_get(x, y)`. -/
def Field.checked_get (f : Field) (x y : Int) : Option Cell :=
  if h : 0 ≤ x ∧ 0 ≤ y ∧ x < GRID ∧ y < GRID then
    some (f.get ⟨x.toNat, by simp only [GRID] at h ⊢; omega⟩
      ⟨y.toNat, by simp only [GRID] at h ⊢; omega⟩)
  else
    none

/-- One iteration of `Field::modify_all`: apply `modifier` at run cell
`i` if it is in grid, else skip. -/
def modifyStep (x y : Nat) (dir : Dir) (modifier : Cell → Int → Cell)
    (f : Field) (i : Int) : Field :=
  let px := (x : Int) + dir.to_vec.1 * i
  let py := (y : Int) + dir.to_vec.2 * i
  match f.readI px py with
  | some c => f.setI px py (modifier c i)
  | none => f

/-- `Field::modify_all(x, y, start_len, end_len, dir, modifier)`: walks
`i` over `start_len..end_len`, applying `modifier` at each in-grid cell
of the run. -/
def Field.modify_all (f : Field) (x y : Nat) (start_len end_len : Int) (dir : Dir)
    (modifier : Cell → Int → Cell) : Field :=
  ((List.range (end_len - start_len).toNat).map (fun k : Nat => start_len + (k : Int))).foldl
    (modifyStep x y dir modifier) f

/-- The nine `(ddx, ddy)` offsets of the 3×3 neighborhood scan in
`Field::has_collision` (outer `ddx in -1..=1`, inner `ddy in -1..=1`). -/
def nbhdOffsets : List (Int × Int) :=
  [(-1, -1), (-1, 0), (-1, 1), (0, -1), (0, 0), (0, 1), (1, -1), (1, 0), (1, 1)]

/-- Does this cell hold a ship segment passing the `destroyed_only`
filter of `Field::has_collision`? -/
def Cell.shipFiltered (c : Cell) (destroyed_only : Bool) : Bool :=
  match c with
  | .ship _ _ _ _ destroyed => !(destroyed_only && !destroyed)
  | _ => false

/-- The inner double loop of `Field::has_collision`: scan the 3×3
neighborhood of in-grid run cell `(px, py)` for a ship segment passing
the `destroyed_only` filter. -/
def collisionAt (f : Field) (px py : Int) (destroyed_only : Bool) : Bool :=
  nbhdOffsets.any fun dd =>
    let qx := px + dd.1
    let qy := py + dd.2
    if inGrid qx qy then
      match f.readI qx qy with
      | some c => c.shipFiltered destroyed_only
      | none => false
    else
      false

/-- `Field::has_collision(x, y, length, dir, destroyed_only)`.  The
source's early-`return true` loops are pure scans, embedded with
`List.any` (identical result: no iteration mutates anything). -/
def Field.has_collision (f : Field) (x y : Nat) (length : Nat) (dir : Dir)
    (destroyed_only : Bool) : Bool :=
  (List.range length).any fun i =>
    let px := (x : Int) + dir.to_vec.1 * (i : Int)
    let py := (y : Int) + dir.to_vec.2 * (i : Int)
    if inGrid px py then collisionAt f px py destroyed_only else true

/-- `enum Winner { None, Player, Computer }`. -/
inductive Winner where
  | nobody
  | player
  | computer
deriving DecidableEq, Repr

/-- `enum Move { Player, Computer }` (whose turn it is). -/
inductive Move where
  | player
  | computer
deriving DecidableEq, Repr

/-- The turn flip `match shooter { Player => Computer, Computer => Player }`. -/
def Move.other : Move → Move
  | .player => .computer
  | .computer => .player

/-- `enum ShootResult { Miss, Hit, Destroy }`. -/
inductive ShootResult where
  | miss
  | hit
  | destroy
deriving DecidableEq, Repr

/-- `enum Tactics { Random, Scan { pos, dir }, Line { start_pos, current_pos, dir } }`.
Positions are `[u8; 2]` in the source; they are embedded as `Nat × Nat`
with values reduced `% 256` at the truncating `as u8` casts. -/
inductive Tactics where
  | random
  | scan (pos : Nat × Nat) (dir : Dir)
  | line (start_pos : Nat × Nat) (current_pos : Nat × Nat) (dir : Dir)
deriving DecidableEq, Repr

/-- The game-logic part of `struct GameContext`.  `start : Bool` stands
for `start.is_some()`; rendering/audio/mouse fields and the float
timers carry no game-rule state and are omitted (see the header note). -/
structure GameContext where
  start : Bool
  current_move : Move
  player_field : Field
  computer_field : Field
  inventory : Fin 4 → Nat
  length : Nat
  dir : Dir
  tactics : Tactics
  player_ships : Nat
  computer_ships : Nat
  winner : Winner

instance : DecidableEq GameContext := fun a b => by
  cases a; cases b
  exact decidable_of_iff _ (iff_of_eq (GameContext.mk.injEq ..)).symm

/-- The `enemy_field` selected at the top of `GameContext::shoot`. -/
def GameContext.enemyField (g : GameContext) : Move → Field
  | .player => g.computer_field
  | .computer => g.player_field

/-- Write back the enemy field chosen by `GameContext.enemyField`. -/
def GameContext.withEnemyField (g : GameContext) (shooter : Move) (f : Field) : GameContext :=
  match shooter with
  | .player => { g with computer_field := f }
  | .computer => { g with player_field := f }

/-- The inclusive `isize` range `start..=stop` as a list. -/
def intRange (start stop : Int) : List Int :=
  (List.range (stop + 1 - start).toNat).map (fun k : Nat => start + (k : Int))

/-- The destroy-check loop body of `GameContext::shoot`: are all ship
cells of the run `(x, y) + i·(dx, dy)`, `i ∈ span`, already fired?
(Out-of-grid and non-ship cells are skipped, as in the source.) -/
def allSpanFired (x y dx dy : Int) (f : Field) (span : List Int) : Bool :=
  span.all fun i =>
    match f.readI (x + dx * i) (y + dy * i) with
    | some (.ship _ _ _ fi _) => fi
    | _ => true

/-- One step of the destroy-marking loop of `GameContext::shoot`: set
`destroyed = true` on the ship cell at offset `i` (skipping out-of-grid
and non-ship cells, as in the source). -/
def markStep (x y dx dy : Int) (f : Field) (i : Int) : Field :=
  match f.readI (x + dx * i) (y + dy * i) with
  | some (.ship d fr2 bk2 fi _) => f.setI (x + dx * i) (y + dy * i) (.ship d fr2 bk2 fi true)
  | _ => f

/-- `GameContext::shoot(x, y, shooter)`.  The target must be in range
(the source would panic in `Field::get_mut` otherwise, hence `Fin GRID`
arguments).  The `Cell::Miss` and already-`fire`d `Ship` cases are the
source's final `_ => ShootResult::Miss` arm.  The destroy scan walks
`-(back)..=front` along the ship direction reading the field *after*
the hit cell's `fire` flag was set, exactly as the source does. -/
def shoot (g : GameContext) (x y : Fin GRID) (shooter : Move) : GameContext × ShootResult :=
  let enemy := g.enemyField shooter
  match enemy.get x y with
  | .water =>
      ({ g.withEnemyField shooter (enemy.set x y .miss) with
          current_move := shooter.other }, .miss)
  | .ship dir front back fire destroyed =>
      if fire then (g, .miss)
      else
        let f1 := enemy.set x y (.ship dir front back true destroyed)
        let dx := dir.to_vec.1
        let dy := dir.to_vec.2
        let span := intRange (-(back : Int)) (front : Int)
        let destroy := allSpanFired (x : Int) (y : Int) dx dy f1 span
        let f2 :=
          if destroy then span.foldl (markStep (x : Int) (y : Int) dx dy) f1
          else f1
        (g.withEnemyField shooter f2, if destroy then .destroy else .hit)
  | .miss => (g, .miss)

/-- The `match random::<u8>() % 4` direction table (used both by
`place_ships` and by the Hit-while-Random tactic transition). -/
def randDir (n : Nat) : Dir :=
  match n % 4 with
  | 0 => .up
  | 1 => .right
  | 2 => .down
  | _ => .left

/-- The AI's candidate target list (`points` in `update_ai`): every cell
not adjacent to a destroyed ship (`has_collision` with 1, `Down`,
`destroyed_only = true`) that is `Water` or an un-`fire`d `Ship`
segment, in the source's `x`-outer / `y`-inner scan order. -/
def candidates (f : Field) : List (Nat × Nat) :=
  (List.range GRID).flatMap fun x =>
    (List.range GRID).filterMap fun y =>
      if f.has_collision x y 1 .down true then none
      else
        match f.readI x y with
        | some .water => some (x, y)
        | some (.ship _ _ _ fire _) => if fire then none else some (x, y)
        | _ => none

/-- The probe test of the rotation loops in `update_ai`:
`tx >= 0 && ty >= 0 && tx < GRID && ty < GRID && points.contains(&(tx, ty))`
for the probe target `base + dir`. -/
def probeOk (points : List (Nat × Nat)) (base : Nat × Nat) (d : Dir) : Prop :=
  0 ≤ (base.1 : Int) + d.to_vec.1 ∧ 0 ≤ (base.2 : Int) + d.to_vec.2 ∧
    (base.1 : Int) + d.to_vec.1 < GRID ∧ (base.2 : Int) + d.to_vec.2 < GRID ∧
    (((base.1 : Int) + d.to_vec.1).toNat, ((base.2 : Int) + d.to_vec.2).toNat) ∈ points

instance (points : List (Nat × Nat)) (base : Nat × Nat) (d : Dir) :
    Decidable (probeOk points base d) := by
  unfold probeOk; infer_instance

/-- The probe target cell `base + dir` (as `usize` coordinates). -/
def probeTarget (base : Nat × Nat) (d : Dir) : Nat × Nat :=
  (((base.1 : Int) + d.to_vec.1).toNat, ((base.2 : Int) + d.to_vec.2).toNat)

/-- The clockwise-rotation probe loop: probe `base + dir`; if the target
is in grid and in the candidate list take it, else rotate `dir`
clockwise and retry.  This is the body of both the `Tactics::Scan`
selection arm and the Hit-while-Scan transition in `update_ai`, an
unbounded `loop` in the source; `fuel` counts probes, `none` standing
for a non-terminating run. -/
def findDir (fuel : Nat) (points : List (Nat × Nat)) (base : Nat × Nat) (d : Dir) :
    Option ((Nat × Nat) × Dir) :=
  match fuel with
  | 0 => none
  | fuel + 1 =>
      if probeOk points base d then
        some (probeTarget base d, d)
      else
        findDir fuel points base d.clockwise

/-- The target-selection `loop` of `update_ai`: `Random` picks
`points[random % len]` (a panic when `points` is empty — `none`),
`Scan` runs the rotation probe, `Line` takes `current_pos` directly
(with no range or candidate check).  The returned tactic records the
in-place `dir` rotations the loop performed. -/
def selectTarget (fuel : Nat) (points : List (Nat × Nat)) (t : Tactics) (rIdx : Nat) :
    Option ((Nat × Nat) × Tactics) :=
  match t with
  | .random =>
      if h : points.length ≠ 0 then
        some (points.get ⟨rIdx % points.length, Nat.mod_lt _ (Nat.pos_of_ne_zero h)⟩, .random)
      else none
  | .scan pos d => (findDir fuel points pos d).map fun r => (r.1, .scan pos r.2)
  | .line s c d => some (c, .line s c d)

/-- The `if let Some(ships) = ships.checked_sub(1)` block run on a
`Destroy` result: decrement the victim's live-ship counter if nonzero,
and record `victor` as winner when it reaches zero. -/
def registerDestroy (ships : Nat) (winner : Winner) (victor : Winner) : Nat × Winner :=
  match ships with
  | 0 => (0, winner)
  | n + 1 => (n, if n = 0 then victor else winner)

/-- The truncating `as u8` cast applied to an `isize` coordinate in the
`Line` tactic updates. -/
def toU8 (t : Int) : Nat := (t.emod 256).toNat

/-- `GameContext::update_ai`, game-logic part.  `ready` stands for the
float delay having elapsed (the body runs only then), `rIdx`/`rDir` for
the `random::<usize>`/`random::<u8>` draws, `fuel` for the unbounded
rotation loops; `none` models a panicking or non-terminating tick
(empty candidate list under `Random`, an out-of-range `Line` target, or
a candidate-less rotation loop). -/
def updateAI (g : GameContext) (ready : Bool) (rIdx rDir : Nat) (fuel : Nat) :
    Option GameContext :=
  if g.current_move ≠ .computer then some g
  else if !ready then some g
  else
    let points := candidates g.player_field
    match selectTarget fuel points g.tactics rIdx with
    | none => none
    | some (txy, t') =>
        if h : txy.1 < GRID ∧ txy.2 < GRID then
          let g1 := { g with tactics := t' }
          let sr := shoot g1 ⟨txy.1, h.1⟩ ⟨txy.2, h.2⟩ .computer
          let g2 := sr.1
          match sr.2 with
          | .miss =>
              some (match g2.tactics with
                | .scan pos d => { g2 with tactics := .scan pos d.clockwise }
                | .line s c d =>
                    let nd := d.opposite
                    let tx := (s.1 : Int) + nd.to_vec.1
                    let ty := (s.2 : Int) + nd.to_vec.2
                    { g2 with tactics := .line s (toU8 tx, toU8 ty) nd }
                | .random => g2)
          | .hit =>
              match g2.tactics with
              | .random =>
                  some { g2 with tactics := .scan (txy.1, txy.2) (randDir rDir) }
              | .scan pos d =>
                  match findDir fuel points (txy.1, txy.2) d with
                  | none => none
                  | some (tgt, d') => some { g2 with tactics := .line pos tgt d' }
              | .line s c d =>
                  let tx := (c.1 : Int) + d.to_vec.1
                  let ty := (c.2 : Int) + d.to_vec.2
                  if 0 ≤ tx ∧ 0 ≤ ty ∧ tx < GRID ∧ ty < GRID ∧ (tx.toNat, ty.toNat) ∈ points then
                    some { g2 with tactics := .line s (toU8 tx, toU8 ty) d }
                  else
                    let nd := d.opposite
                    let sx := (s.1 : Int) + nd.to_vec.1
                    let sy := (s.2 : Int) + nd.to_vec.2
                    some { g2 with tactics := .line s (toU8 sx, toU8 sy) nd }
          | .destroy =>
              let rd := registerDestroy g2.player_ships g2.winner .computer
              some { g2 with tactics := .random, player_ships := rd.1, winner := rd.2 }
        else none

/-- The game-logic part of `WindowHandler::draw_frame`: the AI tick runs
only while there is no winner. -/
def frameStep (g : GameContext) (ready : Bool) (rIdx rDir : Nat) (fuel : Nat) :
    Option GameContext :=
  if g.winner = .nobody then updateAI g ready rIdx rDir fuel else some g

/-- The cell writer of ship placement: cell `i` of the run gets
`Ship { dir, back: i, front: length - i - 1 }`, un-fired and
un-destroyed. -/
def shipWriter (dir : Dir) (length : Nat) : Cell → Int → Cell :=
  fun _ i => .ship dir (length - 1 - i.toNat) i.toNat false false

/-- The ship-writing loop shared by `place_ships` (via `modify_all`) and
the mouse placement handler (an identical bounds-guarded loop). -/
def placeRun (f : Field) (x y : Nat) (length : Nat) (dir : Dir) : Field :=
  f.modify_all x y 0 (length : Int) dir (shipWriter dir length)

/-- One gated placement: write the run only if
`has_collision(x, y, length, dir, false)` is false.  Returns the new
field and whether the placement was committed. -/
def placeAttempt (f : Field) (x y : Nat) (length : Nat) (dir : Dir) : Field × Bool :=
  if f.has_collision x y length dir false then (f, false)
  else (placeRun f x y length dir, true)

/-- The rejection-sampling loops of `GameContext::place_ships` over one
field: for each length `1..=4`, draw `(x, y, dir)` tries until the
inventory count for that length is exhausted.  `tries` is the random
draw stream (`x`/`y` reduced `% GRID`, the direction drawn by
`randDir`); `fuel` bounds the unbounded `while`; the result counts the
ships placed. -/
def placeShipsGo (fuel : Nat) (tries : List (Nat × Nat × Nat)) (f : Field)
    (inv : Fin 4 → Nat) (length : Nat) (ships : Nat) : Option (Field × Nat) :=
  match fuel with
  | 0 => none
  | fuel + 1 =>
      if hl : length - 1 < 4 ∧ 1 ≤ length then
        if inv ⟨length - 1, hl.1⟩ > 0 then
          match tries with
          | [] => none
          | (rx, ry, rd) :: rest =>
              let att := placeAttempt f (rx % GRID) (ry % GRID) length (randDir rd)
              if att.2 then
                placeShipsGo fuel rest att.1
                  (fun j => if j = ⟨length - 1, hl.1⟩ then inv j - 1 else inv j)
                  length (ships + 1)
              else
                placeShipsGo fuel rest f inv length ships
        else if length < 4 then
          placeShipsGo fuel tries f inv (length + 1) ships
        else
          some (f, ships)
      else none

/-- `GameContext::place_ships(player, inventory)`: run the placement
loops on the chosen side's field and add the placed count to that
side's live-ship counter. -/
def GameContext.place_ships (g : GameContext) (player : Move) (inventory : Fin 4 → Nat)
    (fuel : Nat) (tries : List (Nat × Nat × Nat)) : Option GameContext :=
  match player with
  | .player =>
      (placeShipsGo fuel tries g.player_field inventory 1 0).map fun r =>
        { g with player_field := r.1, player_ships := g.player_ships + r.2 }
  | .computer =>
      (placeShipsGo fuel tries g.computer_field inventory 1 0).map fun r =>
        { g with computer_field := r.1, computer_ships := g.computer_ships + r.2 }

/-- The `[4, 3, 2, 1]` inventory literal of `GameContext::new` (indexed
by ship length − 1). -/
def initialInventory : Fin 4 → Nat := ![4, 3, 2, 1]

/-- The `[4, 3, 2, 1]` literal passed to `place_ships(Move::Computer, ...)`
at both call sites (mouse placement completion and the R key). -/
def computerInventory : Fin 4 → Nat := ![4, 3, 2, 1]

/-- `GameContext::has_selected_ship_model`:
`inventory[length - 1] > 0`.  `none` models the out-of-range panic when
`length` is not in `1..=4` (`usize` underflow at `length = 0`). -/
def GameContext.has_selected_ship_model (g : GameContext) : Option Bool :=
  if h : g.length - 1 < 4 ∧ 1 ≤ g.length then
    some (g.inventory ⟨g.length - 1, h.1⟩ > 0)
  else none

/-- Which grid region (if any) the mouse event resolved to.  This stands
for the two `get_grid_coordinates` float range checks of
`on_mouse_button`, whose in-range results are always `< GRID`. -/
inductive ClickTarget where
  | leftGrid (x y : Fin GRID)
  | rightGrid (x y : Fin GRID)
  | outside
deriving DecidableEq, Repr

/-- `WindowHandler::on_mouse_button`, game-logic part.  `leftPressed`
stands for `button == Left && state == Pressed` (the shot branch has no
button/state check in the source).  `fuel`/`tries` feed the computer
`place_ships` call that fires once the player's inventory empties. -/
def onMouseButton (g : GameContext) (click : ClickTarget) (leftPressed : Bool)
    (fuel : Nat) (tries : List (Nat × Nat × Nat)) : Option GameContext :=
  if g.winner ≠ .nobody then some g
  else
    match click with
    | .leftGrid x y =>
        if leftPressed && !g.start then
          match g.has_selected_ship_model with
          | none => none
          | some hs =>
              if !hs || g.player_field.has_collision x y g.length g.dir false then some g
              else if hlen : g.length - 1 < 4 ∧ 1 ≤ g.length then
                let g1 := { g with
                  player_field := placeRun g.player_field x y g.length g.dir,
                  inventory :=
                    fun j => if j = ⟨g.length - 1, hlen.1⟩ then g.inventory j - 1 else g.inventory j,
                  player_ships := g.player_ships + 1 }
                if g1.inventory 0 = 0 ∧ g1.inventory 1 = 0 ∧ g1.inventory 2 = 0 ∧
                    g1.inventory 3 = 0 then
                  GameContext.place_ships { g1 with start := true } .computer computerInventory
                    fuel tries
                else some g1
              else none
        else some g
    | .rightGrid x y =>
        if g.start && decide (g.current_move = .player) then
          let sr := shoot g x y .player
          match sr.2 with
          | .destroy =>
              let rd := registerDestroy sr.1.computer_ships sr.1.winner .player
              some { sr.1 with computer_ships := rd.1, winner := rd.2 }
          | _ => some sr.1
        else some g
    | .outside => some g

/-- The keys `on_keyboard_input` reacts to. -/
inductive Key where
  | k1
  | k2
  | k3
  | k4
  | w
  | a
  | s
  | d
  | arrowUp
  | arrowLeft
  | arrowDown
  | arrowRight
  | r
  | other
deriving DecidableEq, Repr

/-- `WindowHandler::on_keyboard_input`, game-logic part.  The whole body
is gated on `start.is_none()`.  The direction keys reproduce the
source's operator precedence: `key == W || key == Up && pressed`
parses as `key == W || (key == Up && pressed)`. -/
def onKeyboardInput (g : GameContext) (key : Key) (pressed : Bool)
    (fuel1 : Nat) (tries1 : List (Nat × Nat × Nat))
    (fuel2 : Nat) (tries2 : List (Nat × Nat × Nat)) : Option GameContext :=
  if !g.start then
    let g := if key = .k1 ∧ pressed then { g with length := 1 } else g
    let g := if key = .k2 ∧ pressed then { g with length := 2 } else g
    let g := if key = .k3 ∧ pressed then { g with length := 3 } else g
    let g := if key = .k4 ∧ pressed then { g with length := 4 } else g
    let g := if key = .w ∨ (key = .arrowUp ∧ pressed) then { g with dir := .up } else g
    let g := if key = .a ∨ (key = .arrowLeft ∧ pressed) then { g with dir := .left } else g
    let g := if key = .s ∨ (key = .arrowDown ∧ pressed) then { g with dir := .down } else g
    let g := if key = .d ∨ (key = .arrowRight ∧ pressed) then { g with dir := .right } else g
    if key = .r ∧ pressed then
      (g.place_ships .player g.inventory fuel1 tries1).bind fun g1 =>
        (g1.place_ships .computer computerInventory fuel2 tries2).map fun g2 =>
          { g2 with start := true }
    else some g
  else some g

/-- `WindowHandler::on_mouse_scroll`, game-logic part.  `newLength`
stands for the float cast `(length as f32 + y) as u8`; the `clamp(1, 4)`
is the source's. -/
def onMouseScroll (g : GameContext) (shiftHeld : Bool) (scrollUp : Bool)
    (newLength : Nat) : GameContext :=
  if g.start then g
  else if shiftHeld then
    if scrollUp then { g with dir := g.dir.clockwise }
    else { g with dir := g.dir.counter_clockwise }
  else
    { g with length := min (max newLength 1) 4 }

/-! ### Specification-side definitions -/

/-- Run cell `i` of a ship run starting at `(x, y)` along `d`. -/
def runCell (x y : Nat) (d : Dir) (i : Nat) : Int × Int :=
  ((x : Int) + d.to_vec.1 * (i : Int), (y : Int) + d.to_vec.2 * (i : Int))

/-- Chebyshev distance at most 1 between two signed grid positions. -/
def chebAdj (p q : Int × Int) : Prop :=
  (p.1 - q.1).natAbs ≤ 1 ∧ (p.2 - q.2).natAbs ≤ 1

instance (p q : Int × Int) : Decidable (chebAdj p q) := by
  unfold chebAdj; infer_instance

/-- Modelled from the spec: the starting-count map asserted in §3 of the
spec, sending ship length 1 to 1 ship, 2 to 1, 3 to 2 and 4 to 1
(the braces description, as opposed to the source's count table). -/
def specStartingCounts : Nat → Nat
  | 1 => 1
  | 2 => 1
  | 3 => 2
  | 4 => 1
  | _ => 0

/-- Observer: the `fire` flag of an optionally-read ship cell. -/
def firedOpt : Option Cell → Bool
  | some (.ship _ _ _ fi _) => fi
  | _ => false

/-- Observer: the `destroyed` flag of an optionally-read ship cell. -/
def destroyedOpt : Option Cell → Bool
  | some (.ship _ _ _ _ de) => de
  | _ => false

/-- Observer: is an optionally-read cell a ship segment? -/
def shipOpt : Option Cell → Bool
  | some (.ship _ _ _ _ _) => true
  | _ => false

/-- Observer: the `fire` flag of the ship segment at signed coordinates
`(px, py)` (false when out of grid or not a ship cell). -/
def firedAt (f : Field) (px py : Int) : Bool := firedOpt (f.readI px py)

/-- Observer: the `destroyed` flag of the ship segment at `(px, py)`. -/
def destroyedAt (f : Field) (px py : Int) : Bool := destroyedOpt (f.readI px py)

/-- Observer: is there a ship segment at `(px, py)`? -/
def shipAt (f : Field) (px py : Int) : Bool := shipOpt (f.readI px py)

/-- Mark a read cell destroyed, as the marking loop does (identity on
non-ship reads). -/
def markOpt : Option Cell → Option Cell
  | some (.ship d fr bk fi _) => some (.ship d fr bk fi true)
  | o => o

/-- A convenient fully-concrete mid-battle context (both fields empty,
player to move, game started). -/
def baseCtx : GameContext where
  start := true
  current_move := .player
  player_field := Field.new
  computer_field := Field.new
  inventory := initialInventory
  length := 4
  dir := .down
  tactics := .random
  player_ships := 0
  computer_ships := 0
  winner := .nobody

/-- `baseCtx` with an existing `Miss` mark at computer cell `(0, 0)`. -/
def missCtx : GameContext :=
  { baseCtx with computer_field := Field.new.set ⟨0, by decide⟩ ⟨0, by decide⟩ .miss }

/-- `baseCtx` with a single length-1 computer ship at `(0, 0)`. -/
def ship1Ctx : GameContext :=
  { baseCtx with
    computer_field := Field.new.set ⟨0, by decide⟩ ⟨0, by decide⟩ (.ship .down 0 0 false false),
    computer_ships := 1 }

/-- One placement attempt: a start cell, a length and a direction. -/
structure Placement where
  px : Nat
  py : Nat
  length : Nat
  dir : Dir
deriving DecidableEq, Repr

/-- The cells a placement occupies. -/
def cellsOf (p : Placement) : List (Int × Int) :=
  (List.range p.length).map (fun i => runCell p.px p.py p.dir i)

/-- Two placements are separated when no cell of one is within Chebyshev
distance 1 of a cell of the other. -/
def separated (p q : Placement) : Prop :=
  ∀ c ∈ cellsOf p, ∀ c2 ∈ cellsOf q, ¬ chebAdj c c2

/-- A sequence of placement attempts, each committed only when
`has_collision(x, y, length, dir, false)` is false (the gate used by
both the mouse handler and `place_ships`).  Returns the final field and
the successful placements in order. -/
def placeSeq : Field → List Placement → Field × List Placement
  | f, [] => (f, [])
  | f, p :: rest =>
      if f.has_collision p.px p.py p.length p.dir false then placeSeq f rest
      else
        let r := placeSeq (placeRun f p.px p.py p.length p.dir) rest
        (r.1, p :: r.2)

/-- All run cells of a placement are in grid and hold ship segments on
field `f`. -/
def placedOk (f : Field) (p : Placement) : Prop :=
  ∀ i < p.length,
    inGrid (runCell p.px p.py p.dir i).1 (runCell p.px p.py p.dir i).2 ∧
    shipAt f (runCell p.px p.py p.dir i).1 (runCell p.px p.py p.dir i).2 = true

/-- `baseCtx` with the winner already recorded as the player. -/
def wonCtx : GameContext := { baseCtx with winner := .player }

/-! ### Theorems -/

@[simp]
theorem withEnemyField_current_move (g : GameContext) (m : Move) (f : Field) :
    (g.withEnemyField m f).current_move = g.current_move := by
  cases m <;> rfl

@[simp]
theorem withEnemyField_winner (g : GameContext) (m : Move) (f : Field) :
    (g.withEnemyField m f).winner = g.winner := by
  cases m <;> rfl

@[simp]
theorem withEnemyField_player_ships (g : GameContext) (m : Move) (f : Field) :
    (g.withEnemyField m f).player_ships = g.player_ships := by
  cases m <;> rfl

@[simp]
theorem withEnemyField_computer_ships (g : GameContext) (m : Move) (f : Field) :
    (g.withEnemyField m f).computer_ships = g.computer_ships := by
  cases m <;> rfl

@[simp]
theorem withEnemyField_tactics (g : GameContext) (m : Move) (f : Field) :
    (g.withEnemyField m f).tactics = g.tactics := by
  cases m <;> rfl

@[simp]
theorem enemyField_withEnemyField (g : GameContext) (m : Move) (f : Field) :
    (g.withEnemyField m f).enemyField m = f := by
  cases m <;> rfl

/-- C10: the `Dir` rotation operators satisfy the dihedral-group
equations: `counter_clockwise` and `clockwise` are mutually inverse,
`opposite` is `clockwise` twice and is an involution, `clockwise` has
order dividing 4, and `to_vec` of the opposite is the componentwise
negation. -/
theorem c10_dir_rotation_algebra :
    ∀ dd : Dir,
      dd.clockwise.counter_clockwise = dd ∧
      dd.counter_clockwise.clockwise = dd ∧
      dd.opposite = dd.clockwise.clockwise ∧
      dd.opposite.opposite = dd ∧
      dd.clockwise.clockwise.clockwise.clockwise = dd ∧
      dd.opposite.to_vec = (-dd.to_vec.1, -dd.to_vec.2) := by
  decide

/-- C9: `Field::checked_get(x, y)` returns `some` cell exactly when
`0 ≤ x < 10` and `0 ≤ y < 10` — in which case it is the cell `get`
reads at those coordinates — and `none` otherwise (no panic). -/
theorem c9_checked_get_total (f : Field) (x y : Int) :
    ((∃ c, f.checked_get x y = some c) ↔ (0 ≤ x ∧ 0 ≤ y ∧ x < GRID ∧ y < GRID)) ∧
    (∀ hx : 0 ≤ x ∧ x < GRID, ∀ hy : 0 ≤ y ∧ y < GRID,
      f.checked_get x y =
        some (f.get ⟨x.toNat, by simp only [GRID] at hx ⊢; omega⟩
          ⟨y.toNat, by simp only [GRID] at hy ⊢; omega⟩)) ∧
    (¬ (0 ≤ x ∧ 0 ≤ y ∧ x < GRID ∧ y < GRID) → f.checked_get x y = none) := by
  refine ⟨⟨fun hc => ?_, fun hb => ?_⟩, fun hx hy => ?_, fun hb => ?_⟩
  · by_contra hb
    rw [Field.checked_get, dif_neg hb] at hc
    exact Option.noConfusion hc.choose_spec
  · exact ⟨_, by rw [Field.checked_get, dif_pos hb]⟩
  · rw [Field.checked_get, dif_pos ⟨hx.1, hy.1, hx.2, hy.2⟩]
  · rw [Field.checked_get, dif_neg hb]

/-- C9 witness: `checked_get` at the in-range cell `(3, 5)` of the empty
field and at the out-of-range coordinates `(-1, 7)`. -/
theorem c9_checked_get_total_witness :
    Field.new.checked_get 3 5 = some (Field.new.get ⟨3, by decide⟩ ⟨5, by decide⟩) ∧
    Field.new.checked_get (-1) 7 = none := by
  refine ⟨(c9_checked_get_total Field.new 3 5).2.1 (by decide) (by decide), ?_⟩
  exact (c9_checked_get_total Field.new (-1) 7).2.2 (by decide)

/-- C7 counterexample: the source's starting inventory gives length 1 a
count of 4 ships, not the 1 ship asserted by the spec's braces map
(the claim's two descriptions contradict each other, and the source
implements the count-table one). -/
theorem c7_counterexample :
    initialInventory ⟨0, by decide⟩ ≠ specStartingCounts 1 := by
  decide

/-- C7 (amended): the starting inventory is the count table `[4,3,2,1]`
indexed by length − 1 — so length 1 ↦ 4 ships, 2 ↦ 3, 3 ↦ 2, 4 ↦ 1 —
and the inventory passed when placing the computer's ships is the same
table. -/
theorem c7_inventory_table :
    initialInventory ⟨0, by decide⟩ = 4 ∧
    initialInventory ⟨1, by decide⟩ = 3 ∧
    initialInventory ⟨2, by decide⟩ = 2 ∧
    initialInventory ⟨3, by decide⟩ = 1 ∧
    computerInventory = initialInventory := by
  decide

/-- C1 counterexample: with an existing `Miss` at computer cell `(0, 0)`
and the player shooting it, the result is `Miss` but the turn does not
flip to the computer — contradicting the claim that every `Miss` result
flips the turn, including on already-`Miss` cells. -/
theorem c1_counterexample :
    (shoot missCtx ⟨0, by decide⟩ ⟨0, by decide⟩ .player).2 = .miss ∧
    (shoot missCtx ⟨0, by decide⟩ ⟨0, by decide⟩ .player).1.current_move = .player ∧
    Move.player.other ≠ .player := by
  decide

/-- C1 (amended): the turn flips exactly when the target cell was
`Water`; a `Hit`/`Destroy` (i.e. any non-`Miss` result, produced exactly
on an un-fired ship segment) never changes the turn, and the `Miss`
returned for an already-`Miss` or already-fired segment leaves the turn
unchanged as well. -/
theorem c1_turn_sequencing (g : GameContext) (x y : Fin GRID) (shooter : Move) :
    (shoot g x y shooter).1.current_move =
      (if (g.enemyField shooter).get x y = .water then shooter.other
        else g.current_move) ∧
    ((shoot g x y shooter).2 = .miss ↔
      ¬ ∃ dd fr bk de, (g.enemyField shooter).get x y = .ship dd fr bk false de) := by
  cases hc : (g.enemyField shooter).get x y with
  | water =>
      rw [if_pos rfl]
      constructor
      · simp [shoot, hc]
      · simp [shoot, hc]
  | miss =>
      rw [if_neg (by simp [hc])]
      constructor
      · simp [shoot, hc]
      · simp [shoot, hc]
  | ship dd fr bk fi de =>
      rw [if_neg (by simp [hc])]
      cases fi with
      | true =>
          constructor
          · simp [shoot, hc]
          · simp [shoot, hc]
      | false =>
          have h2 : (shoot g x y shooter).2 ≠ .miss := by
            simp only [shoot, hc]
            rw [if_neg (by simp)]
            split <;> simp
          constructor
          · simp [shoot, hc]
          · constructor
            · intro hmiss
              exact absurd hmiss h2
            · intro hno
              exact absurd ⟨dd, fr, bk, de, rfl⟩ hno

/-- C2: shooting an in-range cell that is already `Miss` or an
already-fired `Ship` segment returns `Miss` and leaves the whole game
state — both grids, the turn, the winner and both live-ship counters —
unchanged. -/
theorem c2_refire_noop (g : GameContext) (x y : Fin GRID) (shooter : Move)
    (h : (g.enemyField shooter).get x y = .miss ∨
      ∃ dd fr bk de, (g.enemyField shooter).get x y = .ship dd fr bk true de) :
    shoot g x y shooter = (g, .miss) := by
  rcases h with h | ⟨dd, fr, bk, de, h⟩ <;> simp [shoot, h]

/-- C2 witness: re-shooting the already-`Miss` computer cell `(0, 0)`
leaves the context unchanged and reports `Miss`. -/
theorem c2_refire_noop_witness :
    shoot missCtx ⟨0, by decide⟩ ⟨0, by decide⟩ .player = (missCtx, .miss) :=
  c2_refire_noop missCtx ⟨0, by decide⟩ ⟨0, by decide⟩ .player (Or.inl (by decide))

theorem shipFiltered_eq_true (c : Cell) (b : Bool) :
    c.shipFiltered b = true ↔
      ∃ dd fr bk fi de, c = .ship dd fr bk fi de ∧ (b = true → de = true) := by
  cases c with
  | water => simp [Cell.shipFiltered]
  | miss => simp [Cell.shipFiltered]
  | ship dd fr bk fi de =>
      simp only [Cell.shipFiltered, Cell.ship.injEq]
      constructor
      · intro h
        refine ⟨dd, fr, bk, fi, de, ⟨rfl, rfl, rfl, rfl, rfl⟩, ?_⟩
        cases b <;> cases de <;> simp_all
      · rintro ⟨dd', fr', bk', fi', de', ⟨rfl, rfl, rfl, rfl, rfl⟩, himp⟩
        cases b <;> cases de <;> simp_all

theorem mem_nbhdOffsets (dd : Int × Int) :
    dd ∈ nbhdOffsets ↔ dd.1.natAbs ≤ 1 ∧ dd.2.natAbs ≤ 1 := by
  constructor
  · intro h
    simp only [nbhdOffsets, List.mem_cons, List.not_mem_nil, or_false] at h
    rcases h with rfl | rfl | rfl | rfl | rfl | rfl | rfl | rfl | rfl <;> decide
  · rintro ⟨h1, h2⟩
    obtain ⟨a, b⟩ := dd
    simp only [nbhdOffsets, List.mem_cons, List.not_mem_nil, or_false, Prod.mk.injEq]
    omega

theorem collisionAt_eq_true (f : Field) (px py : Int) (b : Bool) :
    collisionAt f px py b = true ↔
      ∃ q : Int × Int, inGrid q.1 q.2 ∧ chebAdj (px, py) q ∧
        ∃ dd fr bk fi de, f.readI q.1 q.2 = some (.ship dd fr bk fi de) ∧
          (b = true → de = true) := by
  simp only [collisionAt, List.any_eq_true]
  constructor
  · rintro ⟨dd, hdd, hbody⟩
    by_cases hq : inGrid (px + dd.1) (py + dd.2)
    · rw [if_pos hq] at hbody
      cases hr : f.readI (px + dd.1) (py + dd.2) with
      | none => rw [hr] at hbody; exact absurd hbody (by simp)
      | some c =>
          rw [hr] at hbody
          obtain ⟨dd', fr, bk, fi, de, hcell, himp⟩ := (shipFiltered_eq_true c b).mp hbody
          refine ⟨(px + dd.1, py + dd.2), hq, ?_, dd', fr, bk, fi, de, ?_, himp⟩
          · have hb := (mem_nbhdOffsets dd).mp hdd
            unfold chebAdj
            constructor <;> simp only <;> omega
          · rw [hr, hcell]
    · rw [if_neg hq] at hbody
      exact absurd hbody (by simp)
  · rintro ⟨⟨qx, qy⟩, hq, hcheb, dd', fr, bk, fi, de, hr, himp⟩
    refine ⟨(qx - px, qy - py), ?_, ?_⟩
    · apply (mem_nbhdOffsets _).mpr
      obtain ⟨h1, h2⟩ := hcheb
      simp only at h1 h2 ⊢
      omega
    · have e1 : px + (qx - px, qy - py).1 = qx := by ring
      have e2 : py + (qx - px, qy - py).2 = qy := by ring
      simp only [e1, e2]
      rw [if_pos hq, hr]
      exact (shipFiltered_eq_true _ b).mpr ⟨dd', fr, bk, fi, de, rfl, himp⟩

theorem has_collision_iff (f : Field) (x y : Nat) (length : Nat) (d : Dir)
    (b : Bool) :
    f.has_collision x y length d b = true ↔
      ((∃ i < length, ¬ inGrid (runCell x y d i).1 (runCell x y d i).2) ∨
       (∃ i < length, ∃ q : Int × Int, inGrid q.1 q.2 ∧
          chebAdj (runCell x y d i) q ∧
          ∃ dd fr bk fi de, f.readI q.1 q.2 = some (.ship dd fr bk fi de) ∧
            (b = true → de = true))) := by
  simp only [Field.has_collision, List.any_eq_true, List.mem_range]
  constructor
  · rintro ⟨i, hi, hbody⟩
    by_cases hg : inGrid ((x : Int) + d.to_vec.1 * (i : Int)) ((y : Int) + d.to_vec.2 * (i : Int))
    · rw [if_pos hg] at hbody
      right
      obtain ⟨q, hq, hcheb, rest⟩ := (collisionAt_eq_true f _ _ b).mp hbody
      exact ⟨i, hi, q, hq, hcheb, rest⟩
    · exact Or.inl ⟨i, hi, hg⟩
  · rintro (⟨i, hi, hni⟩ | ⟨i, hi, q, hq, hcheb, rest⟩)
    · refine ⟨i, hi, ?_⟩
      simp only [runCell] at hni
      rw [if_neg hni]
    · refine ⟨i, hi, ?_⟩
      by_cases hg : inGrid ((x : Int) + d.to_vec.1 * (i : Int)) ((y : Int) + d.to_vec.2 * (i : Int))
      · rw [if_pos hg]
        exact (collisionAt_eq_true f _ _ b).mpr ⟨q, hq, hcheb, rest⟩
      · rw [if_neg hg]

/-- C3: `has_collision(x, y, length, dir, destroyed_only)` is `true` iff
some run cell falls outside the 10×10 grid, or some in-grid cell within
Chebyshev distance 1 of some run cell holds a ship segment passing the
`destroyed_only` filter (with `destroyed_only = true`, only destroyed
segments count).  The embedding is a pure function of the grid, so the
grid is not mutated.  Stated for every grid, start cell, length,
direction and filter value (covering lengths 1–4). -/
theorem c3_has_collision_spec (f : Field) (x y : Nat) (length : Nat) (d : Dir)
    (b : Bool) :
    f.has_collision x y length d b = true ↔
      ((∃ i < length, ¬ inGrid (runCell x y d i).1 (runCell x y d i).2) ∨
       (∃ i < length, ∃ q : Int × Int, inGrid q.1 q.2 ∧
          chebAdj (runCell x y d i) q ∧
          ∃ dd fr bk fi de, f.readI q.1 q.2 = some (.ship dd fr bk fi de) ∧
            (b = true → de = true))) :=
  has_collision_iff f x y length d b

theorem findDir_succ (n : Nat) (points : List (Nat × Nat)) (base : Nat × Nat) (d : Dir) :
    findDir (n + 1) points base d =
      if probeOk points base d then some (probeTarget base d, d)
      else findDir n points base d.clockwise := rfl

theorem findDir_none_of_all (points : List (Nat × Nat)) (base : Nat × Nat)
    (hall : ∀ d' : Dir, ¬ probeOk points base d') :
    ∀ (fuel : Nat) (d : Dir), findDir fuel points base d = none := by
  intro fuel
  induction fuel with
  | zero => intro d; rfl
  | succ n ih =>
      intro d
      rw [findDir_succ, if_neg (hall d)]
      exact ih d.clockwise

/-- C6 counterexample: with tactic `Scan` at `(0, 0)` and an empty
candidate set, the selection loop has still selected nothing after a
full circle of rotations — `selectTarget` with fuel for five probes
returns `none`, and (by `c6_scan_termination`) so does every larger
fuel: the loop simply never exits, there is no fallback. -/
theorem c6_counterexample :
    selectTarget 5 [] (.scan (0, 0) .up) 0 = none := by decide

/-- C6 (amended): if one of the four directions `d`, `cw d`, `cw² d`,
`cw³ d` probes from `base` into the candidate set, the rotation loop
(`findDir`, the body of both the `Scan` selection arm and the
Hit-while-Scan transition) selects a target within at most four probes
(three rotations); otherwise it never terminates — the source has no
fallback, so the selection step is *not* a total function of the
state. -/
theorem c6_scan_termination (points : List (Nat × Nat)) (base : Nat × Nat) (d : Dir) :
    ((probeOk points base d ∨ probeOk points base d.clockwise ∨
      probeOk points base d.clockwise.clockwise ∨
      probeOk points base d.clockwise.clockwise.clockwise) →
        ∃ r, findDir 4 points base d = some r) ∧
    (¬ (probeOk points base d ∨ probeOk points base d.clockwise ∨
        probeOk points base d.clockwise.clockwise ∨
        probeOk points base d.clockwise.clockwise.clockwise) →
      ∀ fuel : Nat, findDir fuel points base d = none) := by
  constructor
  · intro h
    by_cases h0 : probeOk points base d
    · exact ⟨_, by rw [findDir_succ, if_pos h0]⟩
    · by_cases h1 : probeOk points base d.clockwise
      · exact ⟨_, by rw [findDir_succ, if_neg h0, findDir_succ, if_pos h1]⟩
      · by_cases h2 : probeOk points base d.clockwise.clockwise
        · exact ⟨_, by
            rw [findDir_succ, if_neg h0, findDir_succ, if_neg h1, findDir_succ, if_pos h2]⟩
        · by_cases h3 : probeOk points base d.clockwise.clockwise.clockwise
          · exact ⟨_, by
              rw [findDir_succ, if_neg h0, findDir_succ, if_neg h1, findDir_succ,
                if_neg h2, findDir_succ, if_pos h3]⟩
          · rcases h with h | h | h | h <;> contradiction
  · intro hnone
    have hall : ∀ d' : Dir, ¬ probeOk points base d' := by
      intro d' hp
      have hcover : d' = d ∨ d' = d.clockwise ∨ d' = d.clockwise.clockwise ∨
          d' = d.clockwise.clockwise.clockwise := by
        cases d <;> cases d' <;> decide
      rcases hcover with rfl | rfl | rfl | rfl <;> exact hnone (by tauto)
    exact fun fuel => findDir_none_of_all points base hall fuel d

/-- C6 witness: on a candidate set containing only `(1, 0)`, scanning
from `(0, 0)` with initial direction `Up` succeeds (after rotating to
`Right`) within four probes. -/
theorem c6_scan_termination_witness :
    ∃ r, findDir 4 [(1, 0)] (0, 0) .up = some r :=
  (c6_scan_termination [(1, 0)] (0, 0) .up).1 (Or.inr (Or.inl (by decide)))

theorem mem_intRange {a b i : Int} : i ∈ intRange a b ↔ a ≤ i ∧ i ≤ b := by
  unfold intRange
  constructor
  · intro h
    obtain ⟨k, hk, he⟩ := List.mem_map.mp h
    rw [List.mem_range] at hk
    constructor <;> omega
  · rintro ⟨h1, h2⟩
    apply List.mem_map.mpr
    refine ⟨(i - a).toNat, ?_, ?_⟩
    · rw [List.mem_range]
      omega
    · omega

theorem readI_eq_some_inGrid {f : Field} {px py : Int} {c : Cell}
    (h : f.readI px py = some c) : inGrid px py := by
  by_contra hg
  rw [Field.readI, dif_neg hg] at h
  exact Option.noConfusion h

theorem readI_coe (f : Field) (x y : Fin GRID) :
    f.readI ((x : Nat) : Int) ((y : Nat) : Int) = some (f.get x y) := by
  have hx := x.isLt
  have hy := y.isLt
  have hg : inGrid ((x : Nat) : Int) ((y : Nat) : Int) := by
    simp only [inGrid, GRID] at hx hy ⊢
    omega
  rw [Field.readI, dif_pos hg]
  congr 1

theorem readI_set (f : Field) (a b : Fin GRID) (c : Cell) (qx qy : Int) :
    (f.set a b c).readI qx qy =
      if qx = ((a : Nat) : Int) ∧ qy = ((b : Nat) : Int) then some c
      else f.readI qx qy := by
  have ha := a.isLt
  have hb := b.isLt
  simp only [GRID] at ha hb
  by_cases hg : inGrid qx qy
  · have hgb := hg
    simp only [inGrid, GRID] at hgb
    simp only [Field.readI, dif_pos hg, Field.set, Field.get]
    have hcnd : ((⟨qx.toNat, by simp only [GRID]; omega⟩ : Fin GRID) = a ∧
        (⟨qy.toNat, by simp only [GRID]; omega⟩ : Fin GRID) = b) ↔
        (qx = ((a : Nat) : Int) ∧ qy = ((b : Nat) : Int)) := by
      rw [Fin.ext_iff, Fin.ext_iff]
      simp only [Fin.val_mk]
      omega
    split_ifs with h1 h2 h2
    · rfl
    · exact absurd (hcnd.mp h1) h2
    · exact absurd (hcnd.mpr h2) h1
    · rfl
  · simp only [Field.readI, dif_neg hg]
    rw [if_neg]
    rintro ⟨rfl, rfl⟩
    exact hg (by simp only [inGrid, GRID]; omega)

theorem readI_setI (f : Field) (px py : Int) (c : Cell) (qx qy : Int) :
    (f.setI px py c).readI qx qy =
      if inGrid px py ∧ qx = px ∧ qy = py then some c else f.readI qx qy := by
  rw [Field.setI]
  by_cases hg : inGrid px py
  · have hgb := hg
    simp only [inGrid, GRID] at hgb
    rw [dif_pos hg, readI_set]
    have hcnd : (qx = (((px.toNat : Nat) : Int)) ∧ qy = (((py.toNat : Nat) : Int))) ↔
        (inGrid px py ∧ qx = px ∧ qy = py) := by
      constructor
      · rintro ⟨e1, e2⟩
        exact ⟨hg, by omega, by omega⟩
      · rintro ⟨_, e1, e2⟩
        exact ⟨by omega, by omega⟩
    split_ifs with h1 h2 h2
    · rfl
    · exact absurd (hcnd.mp h1) h2
    · exact absurd (hcnd.mpr h2) h1
    · rfl
  · rw [dif_neg hg, if_neg fun h => hg h.1]

theorem markOpt_markOpt (o : Option Cell) : markOpt (markOpt o) = markOpt o := by
  rcases o with _ | c
  · rfl
  · cases c <;> rfl

theorem firedOpt_markOpt (o : Option Cell) : firedOpt (markOpt o) = firedOpt o := by
  rcases o with _ | c
  · rfl
  · cases c <;> rfl

theorem shipOpt_markOpt (o : Option Cell) : shipOpt (markOpt o) = shipOpt o := by
  rcases o with _ | c
  · rfl
  · cases c <;> rfl

theorem shipOpt_eq_true {o : Option Cell} (h : shipOpt o = true) :
    ∃ d f2 b2 fi de, o = some (.ship d f2 b2 fi de) := by
  rcases o with _ | c
  · exact absurd h (by simp [shipOpt])
  · cases c with
    | ship d f2 b2 fi de => exact ⟨d, f2, b2, fi, de, rfl⟩
    | water => exact absurd h (by simp [shipOpt])
    | miss => exact absurd h (by simp [shipOpt])

theorem destroyedOpt_markOpt_of_ship {o : Option Cell} (h : shipOpt o = true) :
    destroyedOpt (markOpt o) = true := by
  obtain ⟨d, f2, b2, fi, de, rfl⟩ := shipOpt_eq_true h
  rfl

theorem markStep_readI (x y dx dy : Int) (f : Field) (i : Int) (qx qy : Int) :
    (markStep x y dx dy f i).readI qx qy =
      if qx = x + dx * i ∧ qy = y + dy * i then markOpt (f.readI qx qy)
      else f.readI qx qy := by
  rw [markStep]
  cases hr : f.readI (x + dx * i) (y + dy * i) with
  | none =>
      split_ifs with h
      · obtain ⟨rfl, rfl⟩ := h
        rw [hr]
        rfl
      · rfl
  | some c =>
      cases c with
      | ship d fr2 bk2 fi de =>
          rw [readI_setI]
          have hg : inGrid (x + dx * i) (y + dy * i) := readI_eq_some_inGrid hr
          by_cases hq : qx = x + dx * i ∧ qy = y + dy * i
          · rw [if_pos ⟨hg, hq⟩, if_pos hq, hq.1, hq.2, hr]
            rfl
          · rw [if_neg (fun hh => hq hh.2), if_neg hq]
      | water =>
          split_ifs with h
          · obtain ⟨rfl, rfl⟩ := h
            rw [hr]
            rfl
          · rfl
      | miss =>
          split_ifs with h
          · obtain ⟨rfl, rfl⟩ := h
            rw [hr]
            rfl
          · rfl

theorem markFold_readI (x y dx dy : Int) (l : List Int) (f : Field) (qx qy : Int) :
    (l.foldl (markStep x y dx dy) f).readI qx qy =
      if ∃ i ∈ l, qx = x + dx * i ∧ qy = y + dy * i then markOpt (f.readI qx qy)
      else f.readI qx qy := by
  induction l generalizing f with
  | nil => simp
  | cons a rest ih =>
      rw [List.foldl_cons, ih, markStep_readI]
      by_cases ha : qx = x + dx * a ∧ qy = y + dy * a
      · have hmem : ∃ i ∈ (a :: rest), qx = x + dx * i ∧ qy = y + dy * i :=
          ⟨a, List.mem_cons_self a rest, ha⟩
        rw [if_pos ha, if_pos hmem]
        by_cases hrest : ∃ i ∈ rest, qx = x + dx * i ∧ qy = y + dy * i
        · rw [if_pos hrest, markOpt_markOpt]
        · rw [if_neg hrest]
      · rw [if_neg ha]
        by_cases hrest : ∃ i ∈ rest, qx = x + dx * i ∧ qy = y + dy * i
        · have hmem : ∃ i ∈ (a :: rest), qx = x + dx * i ∧ qy = y + dy * i := by
            obtain ⟨i, hi, hp⟩ := hrest
            exact ⟨i, List.mem_cons_of_mem _ hi, hp⟩
          rw [if_pos hrest, if_pos hmem]
        · have hmem : ¬ ∃ i ∈ (a :: rest), qx = x + dx * i ∧ qy = y + dy * i := by
            rintro ⟨i, hi, hp⟩
            rcases List.mem_cons.mp hi with rfl | hi2
            · exact ha hp
            · exact hrest ⟨i, hi2, hp⟩
          rw [if_neg hrest, if_neg hmem]

/-- C4: for a shot on an un-fired ship segment whose ship occupies the
in-grid run of offsets `-back..=front` along its direction (all of them
ship cells), and whose pre-state satisfies the destroyed-implies-fired
invariant for that ship: after the shot the ship is marked destroyed on
all segments simultaneously iff every segment is fired; the result is
`Destroy` exactly in that case; and the destroyed-implies-fired
invariant holds for the ship afterwards.  Stated for arbitrary
`front`/`back`, covering ships of length 1, 2, 3 and 4. -/
theorem c4_destroy_marking (g : GameContext) (x y : Fin GRID) (shooter : Move)
    (dd : Dir) (fr bk : Nat) (de0 : Bool)
    (hc : (g.enemyField shooter).get x y = .ship dd fr bk false de0)
    (hspan : ∀ i ∈ intRange (-(bk : Int)) (fr : Int),
      shipAt (g.enemyField shooter)
        (((x : Nat) : Int) + dd.to_vec.1 * i) (((y : Nat) : Int) + dd.to_vec.2 * i) = true)
    (hinv : (∃ i ∈ intRange (-(bk : Int)) (fr : Int),
        destroyedAt (g.enemyField shooter)
          (((x : Nat) : Int) + dd.to_vec.1 * i) (((y : Nat) : Int) + dd.to_vec.2 * i) = true) →
      ∀ j ∈ intRange (-(bk : Int)) (fr : Int),
        firedAt (g.enemyField shooter)
          (((x : Nat) : Int) + dd.to_vec.1 * j) (((y : Nat) : Int) + dd.to_vec.2 * j) = true) :
    ((shoot g x y shooter).2 = .destroy ↔
      ∀ i ∈ intRange (-(bk : Int)) (fr : Int),
        firedAt ((shoot g x y shooter).1.enemyField shooter)
          (((x : Nat) : Int) + dd.to_vec.1 * i) (((y : Nat) : Int) + dd.to_vec.2 * i) = true) ∧
    ((∀ i ∈ intRange (-(bk : Int)) (fr : Int),
        destroyedAt ((shoot g x y shooter).1.enemyField shooter)
          (((x : Nat) : Int) + dd.to_vec.1 * i) (((y : Nat) : Int) + dd.to_vec.2 * i) = true) ↔
      (∀ i ∈ intRange (-(bk : Int)) (fr : Int),
        firedAt ((shoot g x y shooter).1.enemyField shooter)
          (((x : Nat) : Int) + dd.to_vec.1 * i) (((y : Nat) : Int) + dd.to_vec.2 * i) = true)) ∧
    (∀ i ∈ intRange (-(bk : Int)) (fr : Int),
      destroyedAt ((shoot g x y shooter).1.enemyField shooter)
        (((x : Nat) : Int) + dd.to_vec.1 * i) (((y : Nat) : Int) + dd.to_vec.2 * i) = true →
      ∀ j ∈ intRange (-(bk : Int)) (fr : Int),
        firedAt ((shoot g x y shooter).1.enemyField shooter)
          (((x : Nat) : Int) + dd.to_vec.1 * j) (((y : Nat) : Int) + dd.to_vec.2 * j) = true) := by
  have hshoot : shoot g x y shooter =
      (g.withEnemyField shooter
        (if allSpanFired ((x : Nat) : Int) ((y : Nat) : Int) dd.to_vec.1 dd.to_vec.2
              ((g.enemyField shooter).set x y (.ship dd fr bk true de0))
              (intRange (-(bk : Int)) (fr : Int))
          then (intRange (-(bk : Int)) (fr : Int)).foldl
                (markStep ((x : Nat) : Int) ((y : Nat) : Int) dd.to_vec.1 dd.to_vec.2)
                ((g.enemyField shooter).set x y (.ship dd fr bk true de0))
          else (g.enemyField shooter).set x y (.ship dd fr bk true de0)),
       if allSpanFired ((x : Nat) : Int) ((y : Nat) : Int) dd.to_vec.1 dd.to_vec.2
            ((g.enemyField shooter).set x y (.ship dd fr bk true de0))
            (intRange (-(bk : Int)) (fr : Int))
        then .destroy else .hit) := by
    simp only [shoot, hc]
    exact if_neg (by simp)
  rw [hshoot]
  simp only [enemyField_withEnemyField]
  set f0 := g.enemyField shooter with hf0
  set X := ((x : Nat) : Int) with hX
  set Y := ((y : Nat) : Int) with hY
  set dx := dd.to_vec.1 with hdx
  set dy := dd.to_vec.2 with hdy
  set span := intRange (-(bk : Int)) (fr : Int) with hspandef
  set f1 := f0.set x y (.ship dd fr bk true de0) with hf1
  have hspan0 : (0 : Int) ∈ span := mem_intRange.mpr ⟨by omega, by omega⟩
  have hread0 : f0.readI X Y = some (.ship dd fr bk false de0) := by
    rw [hX, hY, readI_coe, hc]
  have hinj : ∀ i j : Int, X + dx * i = X + dx * j → Y + dy * i = Y + dy * j → i = j := by
    rw [hdx, hdy]
    cases dd <;>
      (intro i j h1 h2; simp only [Dir.to_vec] at h1 h2; omega)
  have hposiff : ∀ i : Int, (X + dx * i = X ∧ Y + dy * i = Y) ↔ i = 0 := by
    intro i
    constructor
    · rintro ⟨h1, h2⟩
      exact hinj i 0 (by rw [h1]; ring) (by rw [h2]; ring)
    · rintro rfl
      constructor <;> ring
  have hf1read : ∀ qx qy : Int, f1.readI qx qy =
      if qx = X ∧ qy = Y then some (.ship dd fr bk true de0) else f0.readI qx qy := by
    intro qx qy
    rw [hf1, readI_set]
  have hshipf1 : ∀ i ∈ span, shipOpt (f1.readI (X + dx * i) (Y + dy * i)) = true := by
    intro i hi
    rw [hf1read]
    by_cases h0 : X + dx * i = X ∧ Y + dy * i = Y
    · rw [if_pos h0]
      rfl
    · rw [if_neg h0]
      exact hspan i hi
  have hA : (allSpanFired X Y dx dy f1 span = true) ↔
      ∀ i ∈ span, firedOpt (f1.readI (X + dx * i) (Y + dy * i)) = true := by
    rw [allSpanFired, List.all_eq_true]
    apply forall_congr'
    intro i
    apply imp_congr_right
    intro hi
    obtain ⟨d2, f2, b2, fi2, de2, he⟩ := shipOpt_eq_true (hshipf1 i hi)
    rw [he]
    exact Iff.rfl
  by_cases hAv : allSpanFired X Y dx dy f1 span = true
  · rw [if_pos hAv, if_pos hAv]
    have hf2read : ∀ i ∈ span,
        (span.foldl (markStep X Y dx dy) f1).readI (X + dx * i) (Y + dy * i) =
          markOpt (f1.readI (X + dx * i) (Y + dy * i)) := by
      intro i hi
      rw [markFold_readI, if_pos ⟨i, hi, rfl, rfl⟩]
    have hfired2 : ∀ i ∈ span,
        firedAt (span.foldl (markStep X Y dx dy) f1) (X + dx * i) (Y + dy * i) = true := by
      intro i hi
      rw [firedAt, hf2read i hi, firedOpt_markOpt]
      exact hA.mp hAv i hi
    have hdest2 : ∀ i ∈ span,
        destroyedAt (span.foldl (markStep X Y dx dy) f1) (X + dx * i) (Y + dy * i) = true := by
      intro i hi
      rw [destroyedAt, hf2read i hi]
      exact destroyedOpt_markOpt_of_ship (hshipf1 i hi)
    refine ⟨⟨fun _ => hfired2, fun _ => rfl⟩, ⟨fun _ => hfired2, fun _ => hdest2⟩,
      fun _ _ _ => hfired2⟩
  · rw [if_neg hAv, if_neg hAv]
    have hnotall : ¬ ∀ i ∈ span, firedOpt (f1.readI (X + dx * i) (Y + dy * i)) = true :=
      fun h => hAv (hA.mpr h)
    have hnd0 : ∀ i ∈ span, destroyedAt f0 (X + dx * i) (Y + dy * i) = false := by
      by_contra hcon
      push_neg at hcon
      obtain ⟨i, hi, hdi⟩ := hcon
      simp only [ne_eq, Bool.not_eq_false] at hdi
      have hall := hinv ⟨i, hi, hdi⟩ 0 hspan0
      rw [show X + dx * 0 = X by ring, show Y + dy * 0 = Y by ring, firedAt, hread0] at hall
      exact Bool.noConfusion hall
    have hf1dest : ∀ i ∈ span, destroyedAt f1 (X + dx * i) (Y + dy * i) = false := by
      intro i hi
      rw [destroyedAt, hf1read]
      by_cases h0 : X + dx * i = X ∧ Y + dy * i = Y
      · rw [if_pos h0]
        have hi0 : i = 0 := (hposiff i).mp h0
        have := hnd0 0 hspan0
        rw [show X + dx * 0 = X by ring, show Y + dy * 0 = Y by ring,
          destroyedAt, hread0] at this
        exact this
      · rw [if_neg h0]
        exact hnd0 i hi
    refine ⟨⟨fun h => absurd h (by simp),
        fun hall => absurd (fun i hi => hall i hi) hnotall⟩,
      ⟨fun hall => ?_, fun hall => absurd (fun i hi => hall i hi) hnotall⟩,
      fun i hi hdi => ?_⟩
    · have h0 := hall 0 hspan0
      rw [hf1dest 0 hspan0] at h0
      exact Bool.noConfusion h0
    · rw [hf1dest i hi] at hdi
      exact Bool.noConfusion hdi

/-- C4 witness: shooting the length-1 computer ship of `ship1Ctx` at
`(0, 0)` yields `Destroy` and marks its (single) segment destroyed. -/
theorem c4_destroy_marking_witness :
    (shoot ship1Ctx ⟨0, by decide⟩ ⟨0, by decide⟩ .player).2 = .destroy ∧
    (∀ i ∈ intRange (-((0 : Nat) : Int)) ((0 : Nat) : Int),
      destroyedAt ((shoot ship1Ctx ⟨0, by decide⟩ ⟨0, by decide⟩ .player).1.enemyField .player)
        ((((⟨0, by decide⟩ : Fin GRID) : Nat) : Int) + Dir.down.to_vec.1 * i)
        ((((⟨0, by decide⟩ : Fin GRID) : Nat) : Int) + Dir.down.to_vec.2 * i) = true) := by
  have h := c4_destroy_marking ship1Ctx ⟨0, by decide⟩ ⟨0, by decide⟩ .player .down 0 0 false
    (by decide) (by decide) (by decide)
  refine ⟨h.1.mpr ?_, h.2.1.mpr ?_⟩ <;> decide

theorem readI_isSome_of_inGrid (f : Field) {px py : Int} (hg : inGrid px py) :
    ∃ c, f.readI px py = some c := ⟨_, by rw [Field.readI, dif_pos hg]⟩

theorem chebAdj_symm {c c2 : Int × Int} (h : chebAdj c c2) : chebAdj c2 c := by
  unfold chebAdj at h ⊢
  omega

theorem has_collision_false_spec (f : Field) (x y len : Nat) (d : Dir)
    (h : f.has_collision x y len d false = false) :
    (∀ i < len, inGrid (runCell x y d i).1 (runCell x y d i).2) ∧
    (∀ i < len, ∀ qx qy : Int, inGrid qx qy → chebAdj (runCell x y d i) (qx, qy) →
      shipAt f qx qy = false) := by
  constructor
  · intro i hi
    by_contra hni
    have hcoll : f.has_collision x y len d false = true :=
      (has_collision_iff f x y len d false).mpr (Or.inl ⟨i, hi, hni⟩)
    rw [h] at hcoll
    exact Bool.noConfusion hcoll
  · intro i hi qx qy hq hch
    by_contra hship
    simp only [ne_eq, Bool.not_eq_false] at hship
    have hs := hship
    simp only [shipAt] at hs
    obtain ⟨dd2, fr2, bk2, fi2, de2, hr⟩ := shipOpt_eq_true hs
    have hcoll : f.has_collision x y len d false = true :=
      (has_collision_iff f x y len d false).mpr
        (Or.inr ⟨i, hi, (qx, qy), hq, hch, dd2, fr2, bk2, fi2, de2, hr, by simp⟩)
    rw [h] at hcoll
    exact Bool.noConfusion hcoll

theorem foldModify_readI_off (x y : Nat) (d : Dir) (w : Cell → Int → Cell)
    (L : List Int) (f : Field) (qx qy : Int)
    (hq : ∀ i ∈ L, ¬ (qx = (x : Int) + d.to_vec.1 * i ∧ qy = (y : Int) + d.to_vec.2 * i)) :
    (L.foldl (modifyStep x y d w) f).readI qx qy = f.readI qx qy := by
  induction L generalizing f with
  | nil => rfl
  | cons a rest ih =>
      rw [List.foldl_cons, ih _ (fun i hi => hq i (List.mem_cons_of_mem _ hi))]
      simp only [modifyStep]
      cases hr : f.readI ((x : Int) + d.to_vec.1 * a) ((y : Int) + d.to_vec.2 * a) with
      | none => rfl
      | some c =>
          rw [readI_setI, if_neg]
          intro hh
          exact hq a (List.mem_cons_self a rest) ⟨hh.2.1, hh.2.2⟩

theorem modifyStep_ship_mono (x y : Nat) (d : Dir) (len : Nat) (f : Field)
    (i qx qy : Int) (hs : shipAt f qx qy = true) :
    shipAt (modifyStep x y d (shipWriter d len) f i) qx qy = true := by
  simp only [modifyStep]
  cases hr : f.readI ((x : Int) + d.to_vec.1 * i) ((y : Int) + d.to_vec.2 * i) with
  | none => exact hs
  | some c =>
      rw [shipAt, readI_setI]
      split_ifs with h
      · rfl
      · exact hs

theorem foldModify_ship_mono (x y : Nat) (d : Dir) (len : Nat) (L : List Int)
    (f : Field) (qx qy : Int) (hs : shipAt f qx qy = true) :
    shipAt (L.foldl (modifyStep x y d (shipWriter d len)) f) qx qy = true := by
  induction L generalizing f with
  | nil => exact hs
  | cons a rest ih =>
      rw [List.foldl_cons]
      exact ih _ (modifyStep_ship_mono x y d len f a qx qy hs)

theorem foldModify_ship_at (x y : Nat) (d : Dir) (len : Nat) (L : List Int)
    (f : Field) (i0 : Int) (hmem : i0 ∈ L)
    (hg : inGrid ((x : Int) + d.to_vec.1 * i0) ((y : Int) + d.to_vec.2 * i0)) :
    shipAt (L.foldl (modifyStep x y d (shipWriter d len)) f)
      ((x : Int) + d.to_vec.1 * i0) ((y : Int) + d.to_vec.2 * i0) = true := by
  induction L generalizing f with
  | nil => cases hmem
  | cons a rest ih =>
      rw [List.foldl_cons]
      rcases List.mem_cons.mp hmem with rfl | hmem2
      · apply foldModify_ship_mono
        simp only [modifyStep]
        obtain ⟨c, hr⟩ := readI_isSome_of_inGrid f hg
        rw [hr, shipAt, readI_setI, if_pos ⟨hg, rfl, rfl⟩]
        rfl
      · exact ih _ hmem2

theorem placeRun_readI_off (f : Field) (x y len : Nat) (d : Dir) (qx qy : Int)
    (hq : ∀ i : Int, 0 ≤ i → i < len →
      ¬ (qx = (x : Int) + d.to_vec.1 * i ∧ qy = (y : Int) + d.to_vec.2 * i)) :
    (placeRun f x y len d).readI qx qy = f.readI qx qy := by
  simp only [placeRun, Field.modify_all]
  apply foldModify_readI_off
  intro i hi
  obtain ⟨k, hk, he⟩ := List.mem_map.mp hi
  rw [List.mem_range] at hk
  exact hq i (by omega) (by omega)

theorem placeRun_ship_mono (f : Field) (x y len : Nat) (d : Dir) (qx qy : Int)
    (hs : shipAt f qx qy = true) :
    shipAt (placeRun f x y len d) qx qy = true := by
  simp only [placeRun, Field.modify_all]
  exact foldModify_ship_mono x y d len _ f qx qy hs

theorem placeRun_ship_at (f : Field) (x y len : Nat) (d : Dir) (i0 : Int)
    (h0 : 0 ≤ i0) (hlen : i0 < len)
    (hg : inGrid ((x : Int) + d.to_vec.1 * i0) ((y : Int) + d.to_vec.2 * i0)) :
    shipAt (placeRun f x y len d)
      ((x : Int) + d.to_vec.1 * i0) ((y : Int) + d.to_vec.2 * i0) = true := by
  simp only [placeRun, Field.modify_all]
  apply foldModify_ship_at x y d len _ f i0 _ hg
  apply List.mem_map.mpr
  refine ⟨i0.toNat, ?_, by omega⟩
  rw [List.mem_range]
  omega

theorem placeSeq_ok (ps : List Placement) (f : Field) (runs : List Placement)
    (hok : ∀ p ∈ runs, placedOk f p)
    (hsep : runs.Pairwise separated) :
    (∀ p ∈ runs ++ (placeSeq f ps).2, placedOk (placeSeq f ps).1 p) ∧
    (runs ++ (placeSeq f ps).2).Pairwise separated := by
  induction ps generalizing f runs with
  | nil =>
      simp only [placeSeq, List.append_nil]
      exact ⟨hok, hsep⟩
  | cons p rest ih =>
      simp only [placeSeq]
      by_cases hcol : f.has_collision p.px p.py p.length p.dir false = true
      · rw [if_pos hcol]
        exact ih f runs hok hsep
      · rw [if_neg hcol]
        simp only [Bool.not_eq_true] at hcol
        obtain ⟨hbound, hclear⟩ := has_collision_false_spec f p.px p.py p.length p.dir hcol
        have hokp : placedOk (placeRun f p.px p.py p.length p.dir) p := by
          intro i hi
          refine ⟨hbound i hi, ?_⟩
          have := placeRun_ship_at f p.px p.py p.length p.dir (i : Int)
            (by omega) (by omega) ?_
          · simpa [runCell] using this
          · simpa [runCell] using hbound i hi
        have hok' : ∀ q ∈ runs ++ [p], placedOk (placeRun f p.px p.py p.length p.dir) q := by
          intro q hq
          rcases List.mem_append.mp hq with hq2 | hq2
          · intro i hi
            obtain ⟨hg, hs⟩ := hok q hq2 i hi
            exact ⟨hg, placeRun_ship_mono f p.px p.py p.length p.dir _ _ hs⟩
          · rw [List.mem_singleton] at hq2
            subst hq2
            exact hokp
        have hsepp : ∀ q ∈ runs, separated q p := by
          intro q hq c hc c2 hc2 hch
          obtain ⟨i, hi, rfl⟩ := List.mem_map.mp hc
          obtain ⟨j, hj, rfl⟩ := List.mem_map.mp hc2
          rw [List.mem_range] at hi hj
          obtain ⟨hgq, hsq⟩ := hok q hq i hi
          have hfalse := hclear j hj (runCell q.px q.py q.dir i).1 (runCell q.px q.py q.dir i).2
            hgq (chebAdj_symm hch)
          rw [hsq] at hfalse
          exact Bool.noConfusion hfalse
        have hsep' : (runs ++ [p]).Pairwise separated := by
          rw [List.pairwise_append]
          refine ⟨hsep, List.pairwise_singleton separated p, ?_⟩
          intro q hq p' hp'
          rw [List.mem_singleton] at hp'
          subst hp'
          exact hsepp q hq
        have hres := ih (placeRun f p.px p.py p.length p.dir) (runs ++ [p]) hok' hsep'
        constructor
        · intro q hq
          apply hres.1
          simp only [List.append_assoc, List.singleton_append]
          simpa using hq
        · have := hres.2
          simpa [List.append_assoc, List.singleton_append] using this

/-- C8: after any sequence of placement attempts each committed only
when `has_collision(x, y, length, dir, false)` is false, the successful
placements are pairwise separated: no cell of one ship is within
Chebyshev distance 1 (i.e. adjacent, including diagonally) of a cell of
a different ship.  (`separated` is symmetric, so the pairwise statement
covers both orders of any two distinct ships.) -/
theorem c8_no_touching (ps : List Placement) :
    (placeSeq Field.new ps).2.Pairwise separated := by
  have h := (placeSeq_ok ps Field.new [] (by intro p hp; cases hp) List.Pairwise.nil).2
  simpa using h

theorem shoot_winner (g : GameContext) (x y : Fin GRID) (s : Move) :
    (shoot g x y s).1.winner = g.winner := by
  cases hc : (g.enemyField s).get x y with
  | water => simp [shoot, hc]
  | miss => simp [shoot, hc]
  | ship dd fr bk fi de => cases fi <;> simp [shoot, hc]

theorem shoot_player_ships (g : GameContext) (x y : Fin GRID) (s : Move) :
    (shoot g x y s).1.player_ships = g.player_ships := by
  cases hc : (g.enemyField s).get x y with
  | water => simp [shoot, hc]
  | miss => simp [shoot, hc]
  | ship dd fr bk fi de => cases fi <;> simp [shoot, hc]

theorem shoot_computer_ships (g : GameContext) (x y : Fin GRID) (s : Move) :
    (shoot g x y s).1.computer_ships = g.computer_ships := by
  cases hc : (g.enemyField s).get x y with
  | water => simp [shoot, hc]
  | miss => simp [shoot, hc]
  | ship dd fr bk fi de => cases fi <;> simp [shoot, hc]

theorem registerDestroy_eq (s : Nat) (w v : Winner) :
    registerDestroy s w v = (s - 1, if s = 1 then v else w) := by
  cases s with
  | zero => simp [registerDestroy]
  | succ n =>
      simp only [registerDestroy, Nat.succ_sub_one]
      congr 1
      by_cases hn : n = 0
      · subst hn
        simp
      · rw [if_neg hn, if_neg (by omega)]

theorem updateAI_winner_step (g : GameContext) (ready : Bool) (rIdx rDir fuel : Nat)
    (g' : GameContext) (h : updateAI g ready rIdx rDir fuel = some g') :
    (g'.winner = g.winner ∧ g'.player_ships = g.player_ships ∧
      g'.computer_ships = g.computer_ships) ∨
    (g'.computer_ships = g.computer_ships ∧ g'.player_ships = g.player_ships - 1 ∧
      g'.winner = (if g.player_ships = 1 then Winner.computer else g.winner)) := by
  simp only [updateAI] at h
  split at h
  · obtain rfl := Option.some.inj h
    exact Or.inl ⟨rfl, rfl, rfl⟩
  · split at h
    · obtain rfl := Option.some.inj h
      exact Or.inl ⟨rfl, rfl, rfl⟩
    · split at h
      · exact Option.noConfusion h
      · rename_i txy t' heq
        split at h
        · rename_i hb
          split at h
          · -- Miss
            obtain rfl := Option.some.inj h
            left
            split <;>
              simp [shoot_winner, shoot_player_ships, shoot_computer_ships]
          · -- Hit
            split at h
            · obtain rfl := Option.some.inj h
              left
              simp [shoot_winner, shoot_player_ships, shoot_computer_ships]
            · split at h
              · exact Option.noConfusion h
              · obtain rfl := Option.some.inj h
                left
                simp [shoot_winner, shoot_player_ships, shoot_computer_ships]
            · split at h
              · obtain rfl := Option.some.inj h
                left
                simp [shoot_winner, shoot_player_ships, shoot_computer_ships]
              · obtain rfl := Option.some.inj h
                left
                simp [shoot_winner, shoot_player_ships, shoot_computer_ships]
          · -- Destroy
            obtain rfl := Option.some.inj h
            right
            simp only [registerDestroy_eq]
            refine ⟨?_, ?_, ?_⟩ <;>
              simp [shoot_winner, shoot_player_ships, shoot_computer_ships]
        · exact Option.noConfusion h

theorem mouseShoot_winner_step (g : GameContext) (x y : Fin GRID) (lp : Bool)
    (fuel : Nat) (tries : List (Nat × Nat × Nat)) (g' : GameContext)
    (h : onMouseButton g (.rightGrid x y) lp fuel tries = some g') :
    (g'.winner = g.winner ∧ g'.player_ships = g.player_ships ∧
      g'.computer_ships = g.computer_ships) ∨
    (g'.player_ships = g.player_ships ∧ g'.computer_ships = g.computer_ships - 1 ∧
      g'.winner = (if g.computer_ships = 1 then Winner.player else g.winner)) := by
  simp only [onMouseButton] at h
  split at h
  · obtain rfl := Option.some.inj h
    exact Or.inl ⟨rfl, rfl, rfl⟩
  · split at h
    · split at h
      · -- Destroy
        obtain rfl := Option.some.inj h
        right
        simp only [registerDestroy_eq]
        refine ⟨?_, ?_, ?_⟩ <;>
          simp [shoot_winner, shoot_player_ships, shoot_computer_ships]
      · -- Miss / Hit
        obtain rfl := Option.some.inj h
        left
        exact ⟨shoot_winner .., shoot_player_ships .., shoot_computer_ships ..⟩
    · obtain rfl := Option.some.inj h
      exact Or.inl ⟨rfl, rfl, rfl⟩

/-- C5: once a winner is recorded, every subsequent event is a no-op on
the game state — the frame step skips the AI tick, the mouse handler
returns immediately, and (because a winner implies the match has
started) the keyboard and scroll handlers are gated off — and the
winner/counter transition itself: an AI tick either leaves winner and
both counters unchanged, or (on `Destroy`) decrements the player's
counter by one and sets the winner to `Computer` exactly when that
counter was 1 (i.e. transitions 1 → 0); symmetrically a player shot
sets the winner to `Player` exactly when the computer's counter
transitions 1 → 0.  (The source's `reset` is an empty stub, so no reset
path exists.) -/
theorem c5_winner_final :
    (∀ (g : GameContext) (ready : Bool) (rIdx rDir fuel : Nat),
      g.winner ≠ .nobody → frameStep g ready rIdx rDir fuel = some g) ∧
    (∀ (g : GameContext) (click : ClickTarget) (lp : Bool) (fuel : Nat)
        (tries : List (Nat × Nat × Nat)),
      g.winner ≠ .nobody → onMouseButton g click lp fuel tries = some g) ∧
    (∀ (g : GameContext) (key : Key) (pressed : Bool) (f1 : Nat)
        (t1 : List (Nat × Nat × Nat)) (f2 : Nat) (t2 : List (Nat × Nat × Nat)),
      g.start = true → onKeyboardInput g key pressed f1 t1 f2 t2 = some g) ∧
    (∀ (g : GameContext) (sh su : Bool) (nl : Nat),
      g.start = true → onMouseScroll g sh su nl = g) ∧
    (∀ (g : GameContext) (ready : Bool) (rIdx rDir fuel : Nat) (g' : GameContext),
      updateAI g ready rIdx rDir fuel = some g' →
        (g'.winner = g.winner ∧ g'.player_ships = g.player_ships ∧
          g'.computer_ships = g.computer_ships) ∨
        (g'.computer_ships = g.computer_ships ∧ g'.player_ships = g.player_ships - 1 ∧
          g'.winner = (if g.player_ships = 1 then Winner.computer else g.winner))) ∧
    (∀ (g : GameContext) (x y : Fin GRID) (lp : Bool) (fuel : Nat)
        (tries : List (Nat × Nat × Nat)) (g' : GameContext),
      onMouseButton g (.rightGrid x y) lp fuel tries = some g' →
        (g'.winner = g.winner ∧ g'.player_ships = g.player_ships ∧
          g'.computer_ships = g.computer_ships) ∨
        (g'.player_ships = g.player_ships ∧ g'.computer_ships = g.computer_ships - 1 ∧
          g'.winner = (if g.computer_ships = 1 then Winner.player else g.winner))) := by
  refine ⟨?_, ?_, ?_, ?_, ?_, ?_⟩
  · intro g ready rIdx rDir fuel h
    rw [frameStep, if_neg h]
  · intro g click lp fuel tries h
    simp only [onMouseButton]
    rw [if_pos h]
  · intro g key pressed f1 t1 f2 t2 h
    simp [onKeyboardInput, h]
  · intro g sh su nl h
    simp [onMouseScroll, h]
  · exact fun g ready rIdx rDir fuel g' h => updateAI_winner_step g ready rIdx rDir fuel g' h
  · exact fun g x y lp fuel tries g' h => mouseShoot_winner_step g x y lp fuel tries g' h

/-- C5 witness: with the winner already `Player` in a started match,
the frame step, mouse, keyboard and scroll handlers all leave the state
unchanged, and the AI-tick winner/counter characterization holds at
that state. -/
theorem c5_winner_final_witness :
    frameStep wonCtx true 0 0 5 = some wonCtx ∧
    onMouseButton wonCtx .outside true 0 [] = some wonCtx ∧
    onKeyboardInput wonCtx .r true 0 [] 0 [] = some wonCtx ∧
    onMouseScroll wonCtx true true 3 = wonCtx ∧
    ((wonCtx.winner = wonCtx.winner ∧ wonCtx.player_ships = wonCtx.player_ships ∧
        wonCtx.computer_ships = wonCtx.computer_ships) ∨
      (wonCtx.computer_ships = wonCtx.computer_ships ∧
        wonCtx.player_ships = wonCtx.player_ships - 1 ∧
        wonCtx.winner = (if wonCtx.player_ships = 1 then Winner.computer
          else wonCtx.winner))) := by
  refine ⟨c5_winner_final.1 wonCtx true 0 0 5 (by decide),
    c5_winner_final.2.1 wonCtx .outside true 0 [] (by decide),
    c5_winner_final.2.2.1 wonCtx .r true 0 [] 0 [] (by decide),
    c5_winner_final.2.2.2.1 wonCtx true true 3 (by decide),
    c5_winner_final.2.2.2.2.1 wonCtx true 0 0 5 wonCtx ?_⟩
  decide

end Battleship
